import Mathlib

set_option linter.unusedVariables false

/-! Verification development for the socket transport layer
(`src/services/socket.js`): the frame codec `parseSocketData`, the hub
(`createCluster`) with its collector registry and `getNodeByMarket`, and the
spoke (`connectToCluster` / `reconnectCluster` / `close`). -/

/-- Characters of a string literal; socket payloads are handled as character lists. -/
def chars (s : String) : List Char := s.data

/-- The opening curly brace character (code 123). -/
def lbrace : Char := Char.ofNat 123

/-- The closing curly brace character (code 125). -/
def rbrace : Char := Char.ofNat 125

/-- Structured values produced by decoding a frame payload. -/
inductive Json where
  | null : Json
  | bool : Bool → Json
  | num : Int → Json
  | str : List Char → Json
  | arr : List Json → Json
  | obj : List (List Char × Json) → Json

/-- Decimal digit test on a character. -/
def isDigitCh (c : Char) : Bool := 48 ≤ c.toNat && c.toNat ≤ 57

/-- Reads a maximal run of decimal digits, accumulating their value. -/
def readDigits : List Char → Nat → Nat × List Char
  | [], acc => (acc, [])
  | c :: rest, acc =>
    if isDigitCh c then readDigits rest (acc * 10 + (c.toNat - 48)) else (acc, c :: rest)

/-- Reads the body of a string literal after the opening quote; escapes unsupported. -/
def parseStrLit : List Char → Option (List Char × List Char)
  | [] => none
  | c :: rest =>
    if c = '"' then some ([], rest)
    else if c = '\\' then none
    else
      match parseStrLit rest with
      | none => none
      | some (s, r) => some (c :: s, r)

/-- Modelled from the spec: the structured decode of a candidate frame
("attempt to decode the buffer as a structured message"), performed in the
source by the host JSON decoder, which is an external collaborator not part of
this repository.  Fuel-based recursive descent over the JSON subset the
protocol exchanges. -/
def parseVal : Nat → List Char → Option (Json × List Char)
  | 0, _ => none
  | _ + 1, [] => none
  | fuel + 1, c :: rest =>
    if c = '"' then
      match parseStrLit rest with
      | none => none
      | some (s, r) => some (Json.str s, r)
    else if c = 't' then
      match rest with
      | 'r' :: 'u' :: 'e' :: r => some (Json.bool true, r)
      | _ => none
    else if c = 'f' then
      match rest with
      | 'a' :: 'l' :: 's' :: 'e' :: r => some (Json.bool false, r)
      | _ => none
    else if c = 'n' then
      match rest with
      | 'u' :: 'l' :: 'l' :: r => some (Json.null, r)
      | _ => none
    else if c = '[' then
      match rest with
      | ']' :: r => some (Json.arr [], r)
      | _ =>
        match parseVal fuel rest with
        | none => none
        | some (e, r) =>
          match r with
          | ',' :: r2 =>
            match parseVal fuel ('[' :: r2) with
            | some (Json.arr es, r3) => some (Json.arr (e :: es), r3)
            | _ => none
          | ']' :: r2 => some (Json.arr [e], r2)
          | _ => none
    else if c = lbrace then
      match rest with
      | [] => none
      | d :: r0 =>
        if d = rbrace then some (Json.obj [], r0)
        else if d = '"' then
          match parseStrLit r0 with
          | none => none
          | some (k, r1) =>
            match r1 with
            | ':' :: r2 =>
              match parseVal fuel r2 with
              | none => none
              | some (v, r3) =>
                match r3 with
                | [] => none
                | ',' :: r4 =>
                  match parseVal fuel (lbrace :: r4) with
                  | some (Json.obj fs, r5) => some (Json.obj ((k, v) :: fs), r5)
                  | _ => none
                | e :: r4 =>
                  if e = rbrace then some (Json.obj [(k, v)], r4) else none
            | _ => none
        else none
    else if c = '-' then
      match rest with
      | [] => none
      | d :: r =>
        if isDigitCh d then
          match readDigits r (d.toNat - 48) with
          | (n, r2) => some (Json.num (-(n : Int)), r2)
        else none
    else if isDigitCh c then
      match readDigits rest (c.toNat - 48) with
      | (n, r) => some (Json.num ((n : Int)), r)
    else none

/-- Modelled from the spec: full-frame decode — succeeds only when the whole
candidate frame is one structured value. -/
def jsonParse (s : List Char) : Option Json :=
  match parseVal (2 * s.length + 2) s with
  | some (j, []) => some j
  | _ => none

/-- Field lookup in a decoded object (first binding wins). -/
def lookupField : List (List Char × Json) → List Char → Option Json
  | [], _ => none
  | (k, v) :: rest, key => if k = key then some v else lookupField rest key

/-- Property access `value.field`: `none` models an absent property. -/
def getField (j : Json) (key : List Char) : Option Json :=
  match j with
  | Json.obj fields => lookupField fields key
  | _ => none

/-- The `data.op === 'welcome'` test of the hub's per-message handler. -/
def isWelcome (msg : Json) : Bool :=
  match getField msg (chars "op") with
  | some (Json.str s) => s = chars "welcome"
  | _ => false

/-- Reads an array of strings (market / index identifier lists). -/
def allStrs : List Json → Option (List (List Char))
  | [] => some []
  | Json.str s :: rest =>
    match allStrs rest with
    | some l => some (s :: l)
    | none => none
  | _ => none

/-- A JSON value as a string-identifier list, when it is one. -/
def asStrList : Option Json → Option (List (List Char))
  | some (Json.arr es) => allStrs es
  | _ => none

/-! ## Frame codec (`parseSocketData`, lines 176–235) -/

/-- `stringData.split('#')`: ordered segments between delimiter occurrences,
including empty ones. -/
def splitHash : List Char → List (List Char)
  | [] => [[]]
  | c :: rest =>
    if c = '#' then [] :: splitHash rest
    else
      match splitHash rest with
      | [] => [[c]]
      | seg :: segs => (c :: seg) :: segs

/-- The loop body of `parseSocketData` over the split segments.  `thr` says
which dispatched messages make the downstream callback throw (the throw is
caught and logged).  Returns the final reassembly buffer, the dispatched
messages in order, and the messages whose callback threw. -/
def processSegs (parse : List Char → Option Json) (thr : Json → Bool)
    (incompleteData : Bool) :
    List Char → List (List Char) → List Char × List Json × List Json
  | buf, [] => (buf, [], [])
  | buf, seg :: rest =>
    if seg = [] then processSegs parse thr incompleteData buf rest
    else
      if rest = [] ∧ incompleteData = true then (buf ++ seg, [], [])
      else
        match parse (buf ++ seg) with
        | none => processSegs parse thr incompleteData [] rest
        | some j =>
          let r := processSegs parse thr incompleteData [] rest
          (r.1, j :: r.2.1, if thr j then j :: r.2.2 else r.2.2)

/-- `parseSocketData(callback, data)` acting on one data chunk: feed the chunk
through the reassembly buffer, dispatching every frame that completes. -/
def parseSocketData (parse : List Char → Option Json) (thr : Json → Bool)
    (pendingSocketData : List Char) (data : List Char) :
    List Char × List Json × List Json :=
  let incompleteData : Bool := !(data.getLast? == some '#')
  if '#' ∈ data then
    processSegs parse thr incompleteData pendingSocketData (splitHash data)
  else
    (pendingSocketData ++ data, [], [])

/-- A downstream callback that never throws. -/
def noThrow : Json → Bool := fun _ => false

/-- Successive `data` events on one connection: fold `parseSocketData` over a
list of chunks, concatenating the dispatched messages. -/
def feedChunks (parse : List Char → Option Json) (thr : Json → Bool) :
    List Char → List (List Char) → List Char × List Json × List Json
  | buf, [] => (buf, [], [])
  | buf, c :: cs =>
    let r1 := parseSocketData parse thr buf c
    let r2 := feedChunks parse thr r1.1 cs
    (r2.1, r1.2.1 ++ r2.2.1, r1.2.2 ++ r2.2.2)


/-! ## Hub (`createCluster`, lines 123–174) and registry -/

/-- A registered collector: the accepted socket together with the `markets`
and `indexes` attributes that the handshake sets on it. -/
structure SpokeRecord where
  sockId : Nat
  markets : List (List Char)
  indexes : List (List Char)
deriving DecidableEq

/-- Hub-side service state.  `pendingSocketData` is the single reassembly
field of the service object — shared by every accepted connection, exactly as
in the source.  `welcomed` is specification ghost state recording which
connections completed a handshake. -/
structure ClusterState where
  pendingSocketData : List Char
  clusteredCollectors : List SpokeRecord
  conns : List Nat
  nextSock : Nat
  emitted : List (Option Json × Option Json)
  welcomed : List Nat

/-- The hub's per-message handler (lines 151–165): a `welcome` registers the
connection from `data.markets` / `data.indexes` and returns; anything else is
emitted as `(data.op, data.data)`.  A handler throw (malformed welcome) leaves
the state unchanged — `parseSocketData` catches it. -/
def hubCallback (sid : Nat) (st : ClusterState) (msg : Json) : ClusterState :=
  if isWelcome msg then
    match getField msg (chars "data") with
    | none => st
    | some d =>
      match asStrList (getField d (chars "markets")),
            asStrList (getField d (chars "indexes")) with
      | some markets, some indexes =>
        { st with
            clusteredCollectors :=
              st.clusteredCollectors ++ [⟨sid, markets, indexes⟩],
            welcomed := st.welcomed ++ [sid] }
      | _, _ => st
  else
    { st with
        emitted := st.emitted ++ [(getField msg (chars "op"), getField msg (chars "data"))] }

/-- One `data` event on an accepted connection: the chunk goes through the
shared `pendingSocketData` buffer and each decoded message through
`hubCallback`. -/
def clusterDataEv (st : ClusterState) (sid : Nat) (chunk : List Char) : ClusterState :=
  let r := parseSocketData jsonParse noThrow st.pendingSocketData chunk
  let st1 := r.2.1.foldl (hubCallback sid) st
  { st1 with pendingSocketData := r.1 }

/-- `clusteredCollectors.indexOf(socket)` + `splice(index, 1)`: remove the
first record of the given connection, if any. -/
def removeFirstById : List SpokeRecord → Nat → List SpokeRecord
  | [], _ => []
  | r :: rs, sid => if r.sockId = sid then rs else r :: removeFirstById rs sid

/-- Environment events the hub reacts to. -/
inductive ClusterEvent where
  | acceptEv : ClusterEvent
  | dataEv : Nat → List Char → ClusterEvent
  | endEv : Nat → ClusterEvent

/-- The hub's reaction to one event: accept resets the shared buffer and
tracks the fresh socket; data feeds the codec; `end` removes the record and
releases the socket. -/
def clusterStep (st : ClusterState) : ClusterEvent → ClusterState
  | ClusterEvent.acceptEv =>
    { st with
        pendingSocketData := [],
        conns := st.conns ++ [st.nextSock],
        nextSock := st.nextSock + 1 }
  | ClusterEvent.dataEv sid chunk =>
    if sid ∈ st.conns then clusterDataEv st sid chunk else st
  | ClusterEvent.endEv sid =>
    { st with
        clusteredCollectors := removeFirstById st.clusteredCollectors sid,
        conns := st.conns.erase sid }

/-- Hub state right after `createCluster` binds the listener. -/
def clusterInit : ClusterState := ⟨[], [], [], 0, [], []⟩

/-- The hub state after a sequence of events. -/
def clusterRun (evs : List ClusterEvent) : ClusterState := evs.foldl clusterStep clusterInit

/-! ## Routing (`getNodeByMarket`, lines 237–248) -/

/-- JavaScript `indexOf`: first index of an element, `-1` when absent. -/
def jsIndexOf {α : Type} [DecidableEq α] (x : α) : List α → Int
  | [] => -1
  | y :: ys =>
    if y = x then 0
    else
      let r := jsIndexOf x ys
      if r = -1 then -1 else r + 1

/-- The scan loop of `getNodeByMarket` over the registry. -/
def scanCollectors (isIndex : Bool) (market : List Char) :
    List SpokeRecord → Option SpokeRecord
  | [] => none
  | r :: rs =>
    if (isIndex && jsIndexOf market r.indexes != -1)
        || (!isIndex && jsIndexOf market r.markets != -1) then some r
    else scanCollectors isIndex market rs

/-- `getNodeByMarket(market)`: identifiers without `':'` are looked up in
index sets, the rest in market sets. -/
def getNodeByMarket (collectors : List SpokeRecord) (market : List Char) :
    Option SpokeRecord :=
  scanCollectors (jsIndexOf ':' market == -1) market collectors

/-- Modelled from the spec: `findSpokeFor(identifier)` as §4.2 words it — an
identifier without the namespace separator is an index identifier and is
looked up in index sets, otherwise in market sets; the first match in registry
order is returned, `none` when absent. -/
def findSpokeFor (registry : List SpokeRecord) (identifier : List Char) :
    Option SpokeRecord :=
  if ':' ∈ identifier then registry.find? (fun r => identifier ∈ r.markets)
  else registry.find? (fun r => identifier ∈ r.indexes)

/-! ## Spoke (`connectToCluster` / `reconnectCluster` / `close`,
lines 46–115 and 250–260) -/

/-- Collector-side service state plus the environment's table of pending
timers (`pendingTimers` holds the timers scheduled and neither fired nor
cleared; `clusterConnectionTimeout` is the service's `_clusterConnectionTimeout`
field). -/
structure CollectorState where
  clusterSocket : Option Nat
  pendingSocketData : List Char
  clusterConnectionTimeout : Option Nat
  pendingTimers : List Nat
  nextTimer : Nat
  nextSock : Nat
  emittedC : List Json

/-- `connectToCluster()`: a no-op (with a warning) when already connected,
otherwise open a fresh outbound socket and reset the reassembly buffer. -/
def connectToCluster (st : CollectorState) : CollectorState :=
  if st.clusterSocket.isSome then st
  else
    { st with
        clusterSocket := some st.nextSock,
        nextSock := st.nextSock + 1,
        pendingSocketData := [] }

/-- `reconnectCluster()`: destroy any current socket, clear the previous
reconnection timer if one is pending, and schedule a fresh one. -/
def reconnectCluster (st : CollectorState) : CollectorState :=
  let st1 := { st with clusterSocket := none }
  let st2 :=
    match st1.clusterConnectionTimeout with
    | some t => { st1 with pendingTimers := st1.pendingTimers.erase t }
    | none => st1
  { st2 with
      pendingTimers := st2.pendingTimers ++ [st2.nextTimer],
      clusterConnectionTimeout := some st2.nextTimer,
      nextTimer := st2.nextTimer + 1 }

/-- Events driving the collector: its API calls, the socket callbacks, and a
timer firing. -/
inductive CollectorEvent where
  | connectCall : CollectorEvent
  | dataEv : List Char → CollectorEvent
  | closeEv : CollectorEvent
  | errorEv : CollectorEvent
  | timerFire : Nat → CollectorEvent
  | closeCall : CollectorEvent

/-- The collector's reaction to one event.  `close` and `error` both route
into `reconnectCluster`; a firing timer nulls the field and reconnects;
`close()` gracefully ends the stream and touches no timer state. -/
def collectorStep (st : CollectorState) : CollectorEvent → CollectorState
  | CollectorEvent.connectCall => connectToCluster st
  | CollectorEvent.dataEv chunk =>
    if st.clusterSocket.isSome then
      let r := parseSocketData jsonParse noThrow st.pendingSocketData chunk
      { st with pendingSocketData := r.1, emittedC := st.emittedC ++ r.2.1 }
    else st
  | CollectorEvent.closeEv => reconnectCluster st
  | CollectorEvent.errorEv => reconnectCluster st
  | CollectorEvent.timerFire t =>
    if t ∈ st.pendingTimers then
      connectToCluster
        { st with
            pendingTimers := st.pendingTimers.erase t,
            clusterConnectionTimeout := none }
    else st
  | CollectorEvent.closeCall => st

/-- Collector state at process start. -/
def collectorInit : CollectorState := ⟨none, [], none, [], 0, 0, []⟩

/-- The collector state after a sequence of events. -/
def collectorRun (evs : List CollectorEvent) : CollectorState :=
  evs.foldl collectorStep collectorInit

/-- At most one reconnection timer exists, and the service field tracks it. -/
def TimerInv (st : CollectorState) : Prop :=
  (st.clusterConnectionTimeout = none ∧ st.pendingTimers = []) ∨
  (∃ t, st.clusterConnectionTimeout = some t ∧ st.pendingTimers = [t])

/-- Modelled from the spec: a well-formed byte stream — a concatenation of
frames, each a nonempty, delimiter-free, decodable payload followed by the
delimiter byte. -/
def wellFormedStream (w : List Char) : Prop :=
  ∃ payloads : List (List Char),
    (∀ p ∈ payloads, p ≠ [] ∧ '#' ∉ p ∧ (jsonParse p).isSome = true) ∧
    w = (payloads.map (fun p => p ++ ['#'])).flatten

/-- Every registered record belongs to a handshaken connection. -/
def RegInv (st : ClusterState) : Prop :=
  ∀ r ∈ st.clusteredCollectors, r.sockId ∈ st.welcomed

/-- A concrete handshake payload. -/
def welcomeData : Json :=
  Json.obj [(chars "markets", Json.arr [Json.str (chars "x:y")]),
            (chars "indexes", Json.arr [Json.str (chars "i1")])]

/-- A concrete well-formed handshake message. -/
def welcomeMsg : Json :=
  Json.obj [(chars "op", Json.str (chars "welcome")), (chars "data", welcomeData)]

/-- The wire form of a well-formed handshake frame. -/
def welcomeFrame : List Char :=
  chars "\x7b\"op\":\"welcome\",\"data\":\x7b\"markets\":[\"x:y\"],\"indexes\":[\"i1\"]\x7d\x7d#"

/-- Merge a pending segment prefix into the head of a segment list. -/
def mergeHead (x : List Char) : List (List Char) → List (List Char)
  | [] => [x]
  | y :: ys => (x ++ y) :: ys

/-- All segments but the last. -/
def dropLastSegs : List (List Char) → List (List Char)
  | [] => []
  | [_] => []
  | x :: xs => x :: dropLastSegs xs

/-- The last segment (empty for an empty list). -/
def lastSeg : List (List Char) → List Char
  | [] => []
  | [x] => x
  | _ :: xs => lastSeg xs

/-- Sequential composition of two codec passes: the second starts from the
first's buffer; dispatched messages and caught errors concatenate. -/
def seqR (r : List Char × List Json × List Json)
    (f : List Char → List Char × List Json × List Json) :
    List Char × List Json × List Json :=
  ((f r.1).1, r.2.1 ++ (f r.1).2.1, r.2.2 ++ (f r.1).2.2)

/-! ## Lemmas about `jsIndexOf` and the registry scan -/

theorem jsIndexOf_nonneg_or {α : Type} [DecidableEq α] (x : α) (l : List α) :
    jsIndexOf x l = -1 ∨ 0 ≤ jsIndexOf x l := by
  induction l with
  | nil => exact Or.inl rfl
  | cons y ys ih =>
    by_cases h : y = x
    · right; simp [jsIndexOf, h]
    · rcases ih with h1 | h1
      · left; simp [jsIndexOf, h, h1]
      · by_cases h2 : jsIndexOf x ys = -1
        · left; simp [jsIndexOf, h, h2]
        · right; simp only [jsIndexOf, if_neg h, if_neg h2]; omega

theorem jsIndexOf_ne_iff {α : Type} [DecidableEq α] (x : α) (l : List α) :
    jsIndexOf x l ≠ -1 ↔ x ∈ l := by
  induction l with
  | nil => simp [jsIndexOf]
  | cons y ys ih =>
    by_cases h : y = x
    · subst h; simp [jsIndexOf]
    · by_cases h2 : jsIndexOf x ys = -1
      · have hx : x ∉ ys := fun hm => (ih.mpr hm) h2
        have hxy : ¬x = y := Ne.symm h
        simp only [jsIndexOf, if_neg h, h2, if_pos rfl]
        simp [List.mem_cons, hx, hxy]
      · have hx : x ∈ ys := ih.mp h2
        have h3 : 0 ≤ jsIndexOf x ys := by
          rcases jsIndexOf_nonneg_or x ys with hc | hc
          · exact absurd hc h2
          · exact hc
        simp only [jsIndexOf, if_neg h, if_neg h2]
        constructor
        · intro _; exact List.mem_cons_of_mem _ hx
        · intro _; omega

theorem scanCollectors_false (m : List Char) (l : List SpokeRecord) :
    scanCollectors false m l = l.find? (fun r => decide (m ∈ r.markets)) := by
  induction l with
  | nil => rfl
  | cons r rs ih =>
    by_cases h : m ∈ r.markets
    · have hne : jsIndexOf m r.markets ≠ -1 := (jsIndexOf_ne_iff m r.markets).mpr h
      simp [scanCollectors, List.find?, h, bne_iff_ne, hne]
    · have heq : jsIndexOf m r.markets = -1 := by
        by_contra hc; exact h ((jsIndexOf_ne_iff m r.markets).mp hc)
      simp [scanCollectors, List.find?, h, bne_iff_ne, heq, ih]

theorem scanCollectors_true (m : List Char) (l : List SpokeRecord) :
    scanCollectors true m l = l.find? (fun r => decide (m ∈ r.indexes)) := by
  induction l with
  | nil => rfl
  | cons r rs ih =>
    by_cases h : m ∈ r.indexes
    · have hne : jsIndexOf m r.indexes ≠ -1 := (jsIndexOf_ne_iff m r.indexes).mpr h
      simp [scanCollectors, List.find?, h, bne_iff_ne, hne]
    · have heq : jsIndexOf m r.indexes = -1 := by
        by_contra hc; exact h ((jsIndexOf_ne_iff m r.indexes).mp hc)
      simp [scanCollectors, List.find?, h, bne_iff_ne, heq, ih]

/-- C6: for every identifier and registry state, `getNodeByMarket` scans index
sets when the identifier has no `':'` namespace separator and market sets
otherwise, returns the first record in registry order whose corresponding set
contains the identifier, and returns `none` when no record matches — that is,
it coincides with the spec's `findSpokeFor`. -/
theorem getNodeByMarket_eq_findSpokeFor (registry : List SpokeRecord) (market : List Char) :
    getNodeByMarket registry market = findSpokeFor registry market := by
  unfold getNodeByMarket findSpokeFor
  by_cases hc : ':' ∈ market
  · have hne : jsIndexOf ':' market ≠ -1 := (jsIndexOf_ne_iff ':' market).mpr hc
    have h1 : (jsIndexOf ':' market == -1) = false := by
      simp [beq_eq_false_iff_ne, hne]
    rw [h1, if_pos hc]
    exact scanCollectors_false market registry
  · have heq : jsIndexOf ':' market = -1 := by
      by_contra hx; exact hc ((jsIndexOf_ne_iff ':' market).mp hx)
    have h1 : (jsIndexOf ':' market == -1) = true := by simp [heq]
    rw [h1, if_neg hc]
    exact scanCollectors_true market registry

/-! ## Lemmas about the collector's reconnection timer -/

theorem connectToCluster_timer_fields (st : CollectorState) :
    (connectToCluster st).pendingTimers = st.pendingTimers ∧
    (connectToCluster st).clusterConnectionTimeout = st.clusterConnectionTimeout := by
  unfold connectToCluster; split <;> exact ⟨rfl, rfl⟩

theorem reconnectCluster_timers (st : CollectorState) (h : TimerInv st) :
    (reconnectCluster st).pendingTimers = [st.nextTimer] ∧
    (reconnectCluster st).clusterConnectionTimeout = some st.nextTimer := by
  rcases h with ⟨h1, h2⟩ | ⟨t, h1, h2⟩
  · simp [reconnectCluster, h1, h2]
  · simp [reconnectCluster, h1, h2]

theorem timerInv_reconnect (st : CollectorState) (h : TimerInv st) :
    TimerInv (reconnectCluster st) := by
  rcases reconnectCluster_timers st h with ⟨h1, h2⟩
  exact Or.inr ⟨st.nextTimer, h2, h1⟩

theorem timerInv_step (st : CollectorState) (ev : CollectorEvent) (h : TimerInv st) :
    TimerInv (collectorStep st ev) := by
  cases ev with
  | connectCall =>
    rcases connectToCluster_timer_fields st with ⟨h1, h2⟩
    unfold TimerInv at h ⊢
    show _ ∨ _
    rw [show collectorStep st CollectorEvent.connectCall = connectToCluster st from rfl, h1, h2]
    exact h
  | dataEv chunk =>
    simp only [collectorStep]
    split
    · exact h
    · exact h
  | closeEv => exact timerInv_reconnect st h
  | errorEv => exact timerInv_reconnect st h
  | timerFire t =>
    simp only [collectorStep]
    by_cases hm : t ∈ st.pendingTimers
    · rw [if_pos hm]
      rcases h with ⟨h1, h2⟩ | ⟨u, h1, h2⟩
      · rw [h2] at hm; exact absurd hm (List.not_mem_nil t)
      · have ht : t = u := by rw [h2] at hm; simpa using hm
        subst ht
        have h3 := connectToCluster_timer_fields
          { st with pendingTimers := st.pendingTimers.erase t, clusterConnectionTimeout := none }
        left
        refine ⟨h3.2, ?_⟩
        rw [h3.1]
        show st.pendingTimers.erase t = []
        rw [h2, List.erase_cons_head]
    · rw [if_neg hm]; exact h
  | closeCall => exact h

theorem timerInv_run (evs : List CollectorEvent) : TimerInv (collectorRun evs) := by
  have main : ∀ (l : List CollectorEvent) (st : CollectorState),
      TimerInv st → TimerInv (l.foldl collectorStep st) := by
    intro l
    induction l with
    | nil => intro st h; exact h
    | cons e l ih => intro st h; exact ih _ (timerInv_step st e h)
  exact main evs collectorInit (Or.inl ⟨rfl, rfl⟩)

/-- C7: in every reachable collector state at most one reconnection timer is
pending — a close or error arriving while one is pending replaces it rather
than adding a second — and a timer that fires is consumed, so at most one
reconnect attempt fires per scheduled delay. -/
theorem at_most_one_reconnect_timer (evs : List CollectorEvent) :
    (collectorRun evs).pendingTimers.length ≤ 1 ∧
    ∀ t : Nat,
      t ∉ (collectorStep (collectorRun evs) (CollectorEvent.timerFire t)).pendingTimers := by
  have h := timerInv_run evs
  constructor
  · rcases h with ⟨_, h2⟩ | ⟨u, _, h2⟩ <;> rw [h2] <;> simp
  · intro t
    simp only [collectorStep]
    by_cases hm : t ∈ (collectorRun evs).pendingTimers
    · rw [if_pos hm]
      rcases h with ⟨h1, h2⟩ | ⟨u, h1, h2⟩
      · rw [h2] at hm; exact absurd hm (List.not_mem_nil t)
      · have ht : t = u := by rw [h2] at hm; simpa using hm
        subst ht
        have h3 := connectToCluster_timer_fields
          { collectorRun evs with
              pendingTimers := (collectorRun evs).pendingTimers.erase t,
              clusterConnectionTimeout := none }
        rw [h3.1]
        show t ∉ (collectorRun evs).pendingTimers.erase t
        rw [h2, List.erase_cons_head]
        exact List.not_mem_nil t
    · rw [if_neg hm]; exact hm

/-- C8 is refuted on the code: explicitly closing a live connection makes the
transport deliver a close event, whose handler schedules a reconnection timer;
that timer stays pending after `close()` and later fires and reconnects. -/
theorem close_leaves_timer_counterexample :
    (collectorRun [CollectorEvent.connectCall, CollectorEvent.closeCall,
        CollectorEvent.closeEv]).pendingTimers = [0] ∧
    (collectorRun [CollectorEvent.connectCall, CollectorEvent.closeCall,
        CollectorEvent.closeEv, CollectorEvent.timerFire 0]).clusterSocket = some 1 :=
  ⟨rfl, rfl⟩

/-- C8 (amended): `close()` cancels nothing — it leaves the pending-timer
state untouched — and a new connection attempt likewise cancels no pending
timer; the only cancellation happens inside `reconnectCluster` itself, which
clears the previous timer exactly when scheduling its replacement, leaving
precisely the fresh timer pending. -/
theorem timer_cancellation_policy (st : CollectorState) (h : TimerInv st) :
    (collectorStep st CollectorEvent.closeCall).pendingTimers = st.pendingTimers ∧
    (collectorStep st CollectorEvent.closeCall).clusterConnectionTimeout
      = st.clusterConnectionTimeout ∧
    (collectorStep st CollectorEvent.connectCall).pendingTimers = st.pendingTimers ∧
    (reconnectCluster st).pendingTimers = [st.nextTimer] ∧
    (reconnectCluster st).clusterConnectionTimeout = some st.nextTimer :=
  ⟨rfl, rfl, (connectToCluster_timer_fields st).1,
    (reconnectCluster_timers st h).1, (reconnectCluster_timers st h).2⟩

theorem timer_cancellation_policy_witness :
    TimerInv collectorInit ∧
    (reconnectCluster collectorInit).pendingTimers = [collectorInit.nextTimer] :=
  ⟨Or.inl ⟨rfl, rfl⟩,
    (timer_cancellation_policy collectorInit (Or.inl ⟨rfl, rfl⟩)).2.2.2.1⟩

/-! ## Buffer flushing and callback errors (codec) -/

theorem mem_of_getLast?_eq {α : Type} (l : List α) (a : α) (h : l.getLast? = some a) :
    a ∈ l := by
  rcases List.mem_getLast?_eq_getLast (l := l) (x := a) h with ⟨hne, heq⟩
  rw [heq]
  exact List.getLast_mem hne

theorem processSegs_false_buf (parse : List Char → Option Json) (thr : Json → Bool) :
    ∀ (segs : List (List Char)) (b : List Char),
      (processSegs parse thr false b segs).1 = b ∨
      (processSegs parse thr false b segs).1 = [] := by
  intro segs
  induction segs with
  | nil => intro b; left; rfl
  | cons seg rest ih =>
    intro b
    by_cases hs : seg = []
    · simp only [processSegs, if_pos hs]; exact ih b
    · simp only [processSegs, if_neg hs]
      have hc : ¬(rest = [] ∧ (false : Bool) = true) := by simp
      rw [if_neg hc]
      cases hp : parse (b ++ seg) with
      | none => rcases ih [] with h | h <;> exact Or.inr h
      | some j => rcases ih [] with h | h <;> exact Or.inr h

theorem processSegs_flush (parse : List Char → Option Json) (thr : Json → Bool) :
    ∀ (segs : List (List Char)) (b : List Char),
      (∃ seg ∈ segs, seg ≠ []) → (processSegs parse thr false b segs).1 = [] := by
  intro segs
  induction segs with
  | nil => intro b h; rcases h with ⟨w, hw, _⟩; exact absurd hw (List.not_mem_nil w)
  | cons seg rest ih =>
    intro b h
    by_cases hs : seg = []
    · simp only [processSegs, if_pos hs]
      apply ih
      rcases h with ⟨w, hw, hne⟩
      rcases List.mem_cons.mp hw with h1 | h1
      · exact absurd (h1.trans hs) hne
      · exact ⟨w, h1, hne⟩
    · simp only [processSegs, if_neg hs]
      have hc : ¬(rest = [] ∧ (false : Bool) = true) := by simp
      rw [if_neg hc]
      cases hp : parse (b ++ seg) with
      | none => rcases processSegs_false_buf parse thr rest [] with h1 | h1 <;> exact h1
      | some j =>
        rcases processSegs_false_buf parse thr rest [] with h1 | h1 <;> exact h1

/-- C2: after any chunk whose last byte is the delimiter (and which carries a
nonempty segment), the reassembly buffer is flushed to empty — for every
decoder and every downstream callback behaviour, failed decodes included; and
the single malformed chunk `"{bad#json}#"` dispatches zero messages, reports
no callback error, and leaves the buffer empty. -/
theorem buffer_flushed_after_processing :
    (∀ (parse : List Char → Option Json) (thr : Json → Bool) (b s : List Char),
        s.getLast? = some '#' → (∃ seg ∈ splitHash s, seg ≠ []) →
        (parseSocketData parse thr b s).1 = []) ∧
    parseSocketData jsonParse noThrow [] (chars "\x7bbad#json\x7d#") = ([], [], []) := by
  constructor
  · intro parse thr b s hlast hex
    have hmem : '#' ∈ s := mem_of_getLast?_eq s '#' hlast
    have hinc : (!(s.getLast? == some '#')) = false := by simp [hlast]
    simp only [parseSocketData, if_pos hmem, hinc]
    exact processSegs_flush parse thr (splitHash s) b hex
  · rfl

theorem buffer_flushed_after_processing_witness :
    (chars "\x7bbad#json\x7d#").getLast? = some '#' ∧
    (∃ seg ∈ splitHash (chars "\x7bbad#json\x7d#"), seg ≠ []) ∧
    (parseSocketData jsonParse noThrow [] (chars "\x7bbad#json\x7d#")).1 = [] :=
  ⟨rfl, ⟨chars "\x7bbad", by decide, by decide⟩,
    buffer_flushed_after_processing.1 jsonParse noThrow [] _ rfl
      ⟨chars "\x7bbad", by decide, by decide⟩⟩

theorem processSegs_thr (parse : List Char → Option Json) (thr : Json → Bool) (inc : Bool) :
    ∀ (segs : List (List Char)) (b : List Char),
      processSegs parse thr inc b segs =
        ((processSegs parse noThrow inc b segs).1,
         (processSegs parse noThrow inc b segs).2.1,
         (processSegs parse noThrow inc b segs).2.1.filter thr) := by
  intro segs
  induction segs with
  | nil => intro b; simp [processSegs]
  | cons seg rest ih =>
    intro b
    by_cases hs : seg = []
    · simp only [processSegs, if_pos hs]; exact ih b
    · simp only [processSegs, if_neg hs]
      by_cases hc : rest = [] ∧ inc = true
      · rw [if_pos hc]; rw [if_pos hc]; simp
      · rw [if_neg hc]; rw [if_neg hc]
        cases hp : parse (b ++ seg) with
        | none => exact ih []
        | some j =>
          have h := ih []
          simp only [h, noThrow, List.filter_cons]

/-- C9: an exception thrown by the downstream consumer during dispatch is
caught per message and never escapes `parseSocketData`: the resulting buffer
and the dispatched message sequence are exactly those of a never-throwing
consumer — the remaining segments are still processed and the buffer still
flushed — and the caught errors are precisely the dispatched messages on
which the consumer threw. -/
theorem callback_throw_harmless (parse : List Char → Option Json) (thr : Json → Bool)
    (b s : List Char) :
    parseSocketData parse thr b s =
      ((parseSocketData parse noThrow b s).1,
       (parseSocketData parse noThrow b s).2.1,
       (parseSocketData parse noThrow b s).2.1.filter thr) := by
  by_cases hm : '#' ∈ s
  · simp only [parseSocketData, if_pos hm]
    exact processSegs_thr parse thr _ (splitHash s) b
  · simp only [parseSocketData, if_neg hm]
    simp

/-! ## Hub handler lemmas and registry invariant -/

theorem hubCallback_registry (sid : Nat) (st : ClusterState) (msg : Json) :
    ((hubCallback sid st msg).clusteredCollectors = st.clusteredCollectors ∧
      (hubCallback sid st msg).welcomed = st.welcomed) ∨
    (∃ ms ixs,
      (hubCallback sid st msg).clusteredCollectors
        = st.clusteredCollectors ++ [⟨sid, ms, ixs⟩] ∧
      (hubCallback sid st msg).welcomed = st.welcomed ++ [sid]) := by
  by_cases hw : isWelcome msg = true
  · cases hd : getField msg (chars "data") with
    | none => exact Or.inl ⟨by simp [hubCallback, hw, hd], by simp [hubCallback, hw, hd]⟩
    | some d =>
      cases hm : asStrList (getField d (chars "markets")) with
      | none =>
        exact Or.inl ⟨by simp [hubCallback, hw, hd, hm], by simp [hubCallback, hw, hd, hm]⟩
      | some ms =>
        cases hx : asStrList (getField d (chars "indexes")) with
        | none =>
          exact Or.inl
            ⟨by simp [hubCallback, hw, hd, hm, hx], by simp [hubCallback, hw, hd, hm, hx]⟩
        | some ixs =>
          exact Or.inr ⟨ms, ixs, by simp [hubCallback, hw, hd, hm, hx],
            by simp [hubCallback, hw, hd, hm, hx]⟩
  · exact Or.inl ⟨by simp [hubCallback, hw], by simp [hubCallback, hw]⟩


theorem removeFirstById_subset (l : List SpokeRecord) (sid : Nat) (r : SpokeRecord)
    (h : r ∈ removeFirstById l sid) : r ∈ l := by
  induction l with
  | nil => simp [removeFirstById] at h
  | cons x xs ih =>
    by_cases hx : x.sockId = sid
    · simp only [removeFirstById, if_pos hx] at h
      exact List.mem_cons_of_mem _ h
    · simp only [removeFirstById, if_neg hx] at h
      rcases List.mem_cons.mp h with h1 | h1
      · exact h1 ▸ List.mem_cons_self x xs
      · exact List.mem_cons_of_mem _ (ih h1)

theorem regInv_hubCallback (sid : Nat) (st : ClusterState) (msg : Json)
    (h : RegInv st) : RegInv (hubCallback sid st msg) := by
  rcases hubCallback_registry sid st msg with ⟨h1, h2⟩ | ⟨ms, ixs, h1, h2⟩
  · intro r hr
    rw [h1] at hr; rw [h2]
    exact h r hr
  · intro r hr
    rw [h1] at hr; rw [h2]
    rcases List.mem_append.mp hr with hh | hh
    · exact List.mem_append.mpr (Or.inl (h r hh))
    · have hrr : r = ⟨sid, ms, ixs⟩ := List.mem_singleton.mp hh
      rw [hrr]
      exact List.mem_append.mpr (Or.inr (by simp))

theorem regInv_fold (sid : Nat) (msgs : List Json) :
    ∀ (st : ClusterState), RegInv st → RegInv (msgs.foldl (hubCallback sid) st) := by
  induction msgs with
  | nil => intro st h; exact h
  | cons m ms ih => intro st h; exact ih _ (regInv_hubCallback sid st m h)

theorem regInv_step (st : ClusterState) (ev : ClusterEvent) (h : RegInv st) :
    RegInv (clusterStep st ev) := by
  cases ev with
  | acceptEv => intro r hr; exact h r hr
  | dataEv sid chunk =>
    simp only [clusterStep]
    split
    · intro r hr
      exact regInv_fold sid _ st h r hr
    · exact h
  | endEv sid =>
    intro r hr
    exact h r (removeFirstById_subset _ _ _ hr)

theorem regInv_run (evs : List ClusterEvent) : RegInv (clusterRun evs) := by
  have main : ∀ (l : List ClusterEvent) (st : ClusterState),
      RegInv st → RegInv (l.foldl clusterStep st) := by
    intro l
    induction l with
    | nil => intro st h; exact h
    | cons e t ih => intro st h; exact ih _ (regInv_step st e h)
  exact main evs clusterInit (fun r hr => absurd hr (List.not_mem_nil r))

/-- C4: on the hub, a decoded `welcome` message (the first one on a connection
included) registers that connection as a spoke record built from
`data.markets` and `data.indexes`, and every decoded message whose op is not
`welcome` is forwarded to the dispatcher as `(data.op, data.data)` regardless
of whether the connection has completed the handshake. -/
theorem welcome_registers_others_forwarded :
    (∀ (sid : Nat) (st : ClusterState) (msg : Json) (d : Json)
        (ms ixs : List (List Char)),
        isWelcome msg = true →
        getField msg (chars "data") = some d →
        asStrList (getField d (chars "markets")) = some ms →
        asStrList (getField d (chars "indexes")) = some ixs →
        hubCallback sid st msg =
          { st with
              clusteredCollectors := st.clusteredCollectors ++ [⟨sid, ms, ixs⟩],
              welcomed := st.welcomed ++ [sid] }) ∧
    (∀ (sid : Nat) (st : ClusterState) (msg : Json),
        isWelcome msg = false →
        hubCallback sid st msg =
          { st with
              emitted := st.emitted
                ++ [(getField msg (chars "op"), getField msg (chars "data"))] }) := by
  constructor
  · intro sid st msg d ms ixs hw hd hm hx
    simp only [hubCallback, hw, if_true, hd, hm, hx]
  · intro sid st msg hw
    simp only [hubCallback, hw, Bool.false_eq_true, if_false]

/-- C10: a decoded `welcome` is never forwarded to the dispatcher — the hub
handler returns right after handling the handshake — while each decoded
message of any other op adds exactly one event `(data.op, data.data)`. -/
theorem welcome_not_forwarded (sid : Nat) (st : ClusterState) (msg : Json) :
    (isWelcome msg = true → (hubCallback sid st msg).emitted = st.emitted) ∧
    (isWelcome msg = false →
      (hubCallback sid st msg).emitted =
        st.emitted ++ [(getField msg (chars "op"), getField msg (chars "data"))]) := by
  constructor
  · intro hw
    cases hd : getField msg (chars "data") with
    | none => simp [hubCallback, hw, hd]
    | some d =>
      cases hm : asStrList (getField d (chars "markets")) with
      | none => simp [hubCallback, hw, hd, hm]
      | some ms =>
        cases hx : asStrList (getField d (chars "indexes")) with
        | none => simp [hubCallback, hw, hd, hm, hx]
        | some ixs => simp [hubCallback, hw, hd, hm, hx]
  · intro hw
    simp [hubCallback, hw]



theorem welcome_registers_others_forwarded_witness :
    isWelcome welcomeMsg = true ∧
    getField welcomeMsg (chars "data") = some welcomeData ∧
    asStrList (getField welcomeData (chars "markets")) = some [chars "x:y"] ∧
    asStrList (getField welcomeData (chars "indexes")) = some [chars "i1"] ∧
    hubCallback 0 clusterInit welcomeMsg =
      { clusterInit with
          clusteredCollectors := [⟨0, [chars "x:y"], [chars "i1"]⟩],
          welcomed := [0] } ∧
    isWelcome (Json.num 5) = false ∧
    hubCallback 0 clusterInit (Json.num 5) =
      { clusterInit with emitted := [(none, none)] } := by
  refine ⟨rfl, rfl, rfl, rfl, ?_, rfl, ?_⟩
  · exact welcome_registers_others_forwarded.1 0 clusterInit welcomeMsg welcomeData
      [chars "x:y"] [chars "i1"] rfl rfl rfl rfl
  · exact welcome_registers_others_forwarded.2 0 clusterInit (Json.num 5) rfl

theorem welcome_not_forwarded_witness :
    isWelcome welcomeMsg = true ∧
    (hubCallback 0 clusterInit welcomeMsg).emitted = clusterInit.emitted ∧
    isWelcome (Json.num 5) = false ∧
    (hubCallback 0 clusterInit (Json.num 5)).emitted = [(none, none)] :=
  ⟨rfl, (welcome_not_forwarded 0 clusterInit welcomeMsg).1 rfl, rfl,
    (welcome_not_forwarded 0 clusterInit (Json.num 5)).2 rfl⟩

/-! ## Spoke-record lifecycle and the shared hub buffer -/


/-- C5 is refuted on the code: a decode error on a registered connection does
not remove its spoke record.  After connection 0 handshakes, feeding it the
malformed frame `"{bad}#"` — a decode failure — leaves its record in the
registry, where the claim demands immediate removal. -/
theorem decode_error_keeps_record_counterexample :
    jsonParse (chars "\x7bbad\x7d") = none ∧
    (clusterRun [ClusterEvent.acceptEv,
        ClusterEvent.dataEv 0 welcomeFrame,
        ClusterEvent.dataEv 0 (chars "\x7bbad\x7d#")]).clusteredCollectors
      = [⟨0, [chars "x:y"], [chars "i1"]⟩] :=
  ⟨rfl, rfl⟩

/-- C5 (amended): a spoke record is created only for a connection that has
completed a successful handshake, never before; it is removed when that
connection's end event fires; a decode error removes nothing — a data event
none of whose candidate frames decodes leaves the registry unchanged. -/
theorem spoke_record_lifecycle :
    (∀ evs : List ClusterEvent, ∀ r ∈ (clusterRun evs).clusteredCollectors,
        r.sockId ∈ (clusterRun evs).welcomed) ∧
    (∀ (st : ClusterState) (sid : Nat) (chunk : List Char),
        (parseSocketData jsonParse noThrow st.pendingSocketData chunk).2.1 = [] →
        (clusterStep st (ClusterEvent.dataEv sid chunk)).clusteredCollectors
          = st.clusteredCollectors) ∧
    (∀ (st : ClusterState) (sid : Nat),
        (clusterStep st (ClusterEvent.endEv sid)).clusteredCollectors
          = removeFirstById st.clusteredCollectors sid) := by
  refine ⟨fun evs => regInv_run evs, ?_, fun st sid => rfl⟩
  intro st sid chunk hz
  simp only [clusterStep]
  split
  · simp only [clusterDataEv, hz]
    rfl
  · rfl

theorem spoke_record_lifecycle_witness :
    (⟨0, [chars "x:y"], [chars "i1"]⟩ : SpokeRecord) ∈
      (clusterRun [ClusterEvent.acceptEv,
        ClusterEvent.dataEv 0 welcomeFrame]).clusteredCollectors ∧
    (0 : Nat) ∈ (clusterRun [ClusterEvent.acceptEv,
        ClusterEvent.dataEv 0 welcomeFrame]).welcomed ∧
    (parseSocketData jsonParse noThrow
        (clusterRun [ClusterEvent.acceptEv,
          ClusterEvent.dataEv 0 welcomeFrame]).pendingSocketData
        (chars "nodelimiter")).2.1 = [] ∧
    (clusterStep (clusterRun [ClusterEvent.acceptEv,
        ClusterEvent.dataEv 0 welcomeFrame])
        (ClusterEvent.dataEv 0 (chars "nodelimiter"))).clusteredCollectors
      = (clusterRun [ClusterEvent.acceptEv,
        ClusterEvent.dataEv 0 welcomeFrame]).clusteredCollectors := by
  have hm : (⟨0, [chars "x:y"], [chars "i1"]⟩ : SpokeRecord) ∈
      (clusterRun [ClusterEvent.acceptEv,
        ClusterEvent.dataEv 0 welcomeFrame]).clusteredCollectors := by decide
  exact ⟨hm, spoke_record_lifecycle.1 _ _ hm, rfl,
    spoke_record_lifecycle.2.1 _ 0 (chars "nodelimiter") rfl⟩

/-- C3 is refuted on the code (code bug): the hub keeps a single service-level
`pendingSocketData` shared by all accepted connections and resets it on every
accept, so a second collector connecting mid-frame destroys the first
connection's partial frame.  The same two chunks from connection 0 produce one
dispatched event when no other connection appears, and zero events when
connection 1 is accepted in between; the accept also visibly clobbers the
pending partial frame. -/
theorem hub_shared_buffer_code_bug :
    (clusterRun [ClusterEvent.acceptEv,
        ClusterEvent.dataEv 0 (chars "\x7b\"op\":\"a\","),
        ClusterEvent.dataEv 0 (chars "\"data\":1\x7d#")]).emitted
      = [(some (Json.str (chars "a")), some (Json.num 1))] ∧
    (clusterRun [ClusterEvent.acceptEv,
        ClusterEvent.dataEv 0 (chars "\x7b\"op\":\"a\","),
        ClusterEvent.acceptEv,
        ClusterEvent.dataEv 0 (chars "\"data\":1\x7d#")]).emitted = [] ∧
    (clusterRun [ClusterEvent.acceptEv,
        ClusterEvent.dataEv 0 (chars "\x7b\"op\":\"a\",")]).pendingSocketData
      = chars "\x7b\"op\":\"a\"," ∧
    (clusterRun [ClusterEvent.acceptEv,
        ClusterEvent.dataEv 0 (chars "\x7b\"op\":\"a\","),
        ClusterEvent.acceptEv]).pendingSocketData = [] :=
  ⟨rfl, rfl, rfl, rfl⟩

/-! ## Chunk composition of the codec (towards chunk invariance) -/

theorem splitHash_ne_nil (s : List Char) : splitHash s ≠ [] := by
  cases s with
  | nil => simp [splitHash]
  | cons c rest =>
    by_cases hc : c = '#'
    · simp [splitHash, hc]
    · simp only [splitHash, if_neg hc]
      cases splitHash rest with
      | nil => simp
      | cons seg segs => simp




theorem segs_decomp : ∀ l : List (List Char), l ≠ [] → l = dropLastSegs l ++ [lastSeg l] := by
  intro l
  induction l with
  | nil => intro h; exact absurd rfl h
  | cons x xs ih =>
    intro h
    cases xs with
    | nil => rfl
    | cons y ys =>
      have h2 := ih (by simp)
      calc x :: y :: ys = x :: (dropLastSegs (y :: ys) ++ [lastSeg (y :: ys)]) := by
            rw [← h2]
        _ = (x :: dropLastSegs (y :: ys)) ++ [lastSeg (y :: ys)] := rfl

theorem lastSeg_concat (l : List (List Char)) (a : List Char) : lastSeg (l ++ [a]) = a := by
  induction l with
  | nil => rfl
  | cons x xs ih =>
    cases xs with
    | nil => rfl
    | cons y ys => exact ih

theorem splitHash_cons_hash (s : List Char) : splitHash ('#' :: s) = [] :: splitHash s := by
  simp [splitHash]

theorem splitHash_cons_ne (c : Char) (s : List Char) (hc : ¬c = '#') (x : List Char)
    (xs : List (List Char)) (hs : splitHash s = x :: xs) :
    splitHash (c :: s) = (c :: x) :: xs := by
  simp [splitHash, hc, hs]

theorem splitHash_append (s t : List Char) :
    splitHash (s ++ t) =
      dropLastSegs (splitHash s) ++ mergeHead (lastSeg (splitHash s)) (splitHash t) := by
  induction s with
  | nil =>
    cases ht : splitHash t with
    | nil => exact absurd ht (splitHash_ne_nil t)
    | cons u us =>
      rw [List.nil_append, ht]
      rfl
  | cons c s ih =>
    cases hs : splitHash s with
    | nil => exact absurd hs (splitHash_ne_nil s)
    | cons x xs =>
      rw [List.cons_append]
      by_cases hc : c = '#'
      · subst hc
        rw [splitHash_cons_hash, ih, hs, splitHash_cons_hash, hs]
        rfl
      · cases xs with
        | nil =>
          cases ht : splitHash t with
          | nil => exact absurd ht (splitHash_ne_nil t)
          | cons u us =>
            have e3 : splitHash (s ++ t) = (x ++ u) :: us := by
              rw [ih, hs, ht]; rfl
            rw [splitHash_cons_ne c (s ++ t) hc _ _ e3,
              splitHash_cons_ne c s hc x [] hs]
            rfl
        | cons y ys =>
          have e3 : splitHash (s ++ t)
              = x :: (dropLastSegs (y :: ys)
                  ++ mergeHead (lastSeg (y :: ys)) (splitHash t)) := by
            rw [ih, hs]; rfl
          rw [splitHash_cons_ne c (s ++ t) hc _ _ e3,
            splitHash_cons_ne c s hc x (y :: ys) hs]
          rfl

theorem splitHash_no_hash (s : List Char) (h : '#' ∉ s) : splitHash s = [s] := by
  induction s with
  | nil => rfl
  | cons c rest ih =>
    have hc : ¬c = '#' := by
      intro e; subst e; exact h (List.mem_cons_self _ _)
    have hr : '#' ∉ rest := fun m => h (List.mem_cons_of_mem c m)
    simp [splitHash, hc, ih hr]

theorem lastSeg_splitHash_ends (s : List Char) (h : s.getLast? = some '#') :
    lastSeg (splitHash s) = [] := by
  rcases List.eq_nil_or_concat' s with rfl | ⟨s', c, rfl⟩
  · simp at h
  · have hc : c = '#' := by
      rw [List.getLast?_append_cons] at h
      simpa using h
    subst hc
    rw [splitHash_append s' ['#']]
    have hsp : splitHash ['#'] = [[], []] := rfl
    rw [hsp]
    have hm : mergeHead (lastSeg (splitHash s')) [[], []]
        = [lastSeg (splitHash s') ++ [], []] := rfl
    rw [hm]
    have hshape : dropLastSegs (splitHash s') ++ [lastSeg (splitHash s') ++ [], []]
        = (dropLastSegs (splitHash s') ++ [lastSeg (splitHash s') ++ []]) ++ [[]] := by
      simp
    rw [hshape, lastSeg_concat]

theorem lastSeg_splitHash_not_ends (s : List Char) (hne : s ≠ [])
    (h : s.getLast? ≠ some '#') : lastSeg (splitHash s) ≠ [] := by
  rcases List.eq_nil_or_concat' s with rfl | ⟨s', c, rfl⟩
  · exact absurd rfl hne
  · have hc : c ≠ '#' := by
      intro e; subst e
      apply h
      rw [List.getLast?_append_cons]
      rfl
    rw [splitHash_append s' [c]]
    have hsp : splitHash [c] = [[c]] := by simp [splitHash, hc]
    rw [hsp]
    have hm : mergeHead (lastSeg (splitHash s')) [[c]]
        = [lastSeg (splitHash s') ++ [c]] := rfl
    rw [hm, lastSeg_concat]
    simp


theorem seqR_congr (r : List Char × List Json × List Json)
    (f g : List Char → List Char × List Json × List Json) (h : f r.1 = g r.1) :
    seqR r f = seqR r g := by
  simp [seqR, h]

theorem seqR_assoc (r : List Char × List Json × List Json)
    (f g : List Char → List Char × List Json × List Json) :
    seqR (seqR r f) g = seqR r (fun b => seqR (f b) g) := by
  simp [seqR, List.append_assoc]

theorem segs_append (P : List Char → Option Json) (T : Json → Bool) (i : Bool) :
    ∀ (xs ys : List (List Char)), ys ≠ [] → ∀ b : List Char,
      processSegs P T i b (xs ++ ys) =
        seqR (processSegs P T false b xs) (fun b2 => processSegs P T i b2 ys) := by
  intro xs
  induction xs with
  | nil =>
    intro ys hys b
    simp [processSegs, seqR]
  | cons seg rest ih =>
    intro ys hys b
    rw [List.cons_append]
    by_cases hs : seg = []
    · simp only [processSegs, if_pos hs]
      exact ih ys hys b
    · simp only [processSegs, if_neg hs]
      have h1 : ¬(rest ++ ys = [] ∧ i = true) := by
        intro h2
        exact hys (List.append_eq_nil.mp h2.1).2
      have h2 : ¬(rest = [] ∧ (false : Bool) = true) := by simp
      rw [if_neg h1, if_neg h2]
      cases hp : P (b ++ seg) with
      | none => exact ih ys hys []
      | some j =>
        rw [ih ys hys []]
        cases hT : T j <;> simp [seqR, hT]

theorem processSegs_absorb (P : List Char → Option Json) (T : Json → Bool) (i : Bool)
    (b s u : List Char) (hu : u ≠ []) (us : List (List Char)) :
    processSegs P T i b ((s ++ u) :: us) = processSegs P T i (b ++ s) (u :: us) := by
  have h1 : ¬(s ++ u = []) := fun e => hu (List.append_eq_nil.mp e).2
  simp only [processSegs, if_neg h1, if_neg hu]
  rw [← List.append_assoc]

theorem processSegs_single_empty (P : List Char → Option Json) (T : Json → Bool)
    (i : Bool) (b : List Char) : processSegs P T i b [[]] = (b, [], []) := by
  simp [processSegs]

theorem processSegs_single_full (P : List Char → Option Json) (T : Json → Bool)
    (b L : List Char) (hL : L ≠ []) :
    processSegs P T true b [L] = (b ++ L, [], []) := by
  simp [processSegs, hL]

theorem parse_tail_eval (P : List Char → Option Json) (T : Json → Bool)
    (th : Char) (t' x : List Char) (xs : List (List Char))
    (hspt : splitHash (th :: t') = (th :: x) :: xs) (b2 : List Char) :
    parseSocketData P T b2 (th :: t') =
      processSegs P T (!((th :: t').getLast? == some '#')) b2 ((th :: x) :: xs) := by
  by_cases hmT : '#' ∈ th :: t'
  · simp only [parseSocketData, if_pos hmT, hspt]
  · have h1 : splitHash (th :: t') = [th :: t'] := splitHash_no_hash _ hmT
    rw [h1] at hspt
    injection hspt with ha hb
    cases hb
    injection ha with h3 h4
    cases h4
    have hg : (th :: t').getLast? ≠ some '#' :=
      fun e => hmT (mem_of_getLast?_eq _ '#' e)
    have hinc : (!((th :: t').getLast? == some '#')) = true := by
      simp [hg]
    simp only [parseSocketData, if_neg hmT]
    rw [hinc, processSegs_single_full P T b2 (th :: t') (by simp)]

theorem parse_append (P : List Char → Option Json) (T : Json → Bool)
    (b s t : List Char) (ht : t.head? ≠ some '#') :
    parseSocketData P T b (s ++ t) =
      seqR (parseSocketData P T b s) (fun b2 => parseSocketData P T b2 t) := by
  cases t with
  | nil => simp [parseSocketData, seqR]
  | cons th t' =>
    have hth : th ≠ '#' := fun e => ht (by rw [e]; rfl)
    obtain ⟨x, xs, hspt⟩ : ∃ x xs, splitHash (th :: t') = (th :: x) :: xs := by
      cases hq : splitHash t' with
      | nil => exact absurd hq (splitHash_ne_nil t')
      | cons x xs => exact ⟨x, xs, splitHash_cons_ne th t' hth x xs hq⟩
    have htail := parse_tail_eval P T th t' x xs hspt
    have hlast : (s ++ th :: t').getLast? = (th :: t').getLast? :=
      List.getLast?_append_cons s th t'
    by_cases hmS : '#' ∈ s
    · have hmST : '#' ∈ s ++ th :: t' := List.mem_append.mpr (Or.inl hmS)
      have hsp2 : splitHash (s ++ th :: t')
          = dropLastSegs (splitHash s)
            ++ ((lastSeg (splitHash s) ++ (th :: x)) :: xs) := by
        rw [splitHash_append, hspt]; rfl
      have hdec := segs_decomp (splitHash s) (splitHash_ne_nil s)
      have hL1 : parseSocketData P T b (s ++ th :: t')
          = processSegs P T (!((th :: t').getLast? == some '#')) b
              (dropLastSegs (splitHash s)
                ++ ((lastSeg (splitHash s) ++ (th :: x)) :: xs)) := by
        simp only [parseSocketData, if_pos hmST, hsp2, hlast]
      have hR1 : parseSocketData P T b s
          = processSegs P T (!(s.getLast? == some '#')) b
              (dropLastSegs (splitHash s) ++ [lastSeg (splitHash s)]) := by
        simp only [parseSocketData, if_pos hmS]
        rw [← hdec]
      rw [hL1, hR1,
        segs_append P T (!((th :: t').getLast? == some '#'))
          (dropLastSegs (splitHash s))
          ((lastSeg (splitHash s) ++ (th :: x)) :: xs) (by simp) b,
        segs_append P T (!(s.getLast? == some '#'))
          (dropLastSegs (splitHash s)) [lastSeg (splitHash s)] (by simp) b,
        seqR_assoc]
      apply seqR_congr
      dsimp only
      rw [processSegs_absorb P T (!((th :: t').getLast? == some '#'))
        ((processSegs P T false b (dropLastSegs (splitHash s))).1)
        (lastSeg (splitHash s)) (th :: x) (by simp) xs]
      by_cases hend : s.getLast? = some '#'
      · have hLnil := lastSeg_splitHash_ends s hend
        rw [hLnil, List.append_nil,
          processSegs_single_empty P T (!(s.getLast? == some '#'))]
        rw [← htail ((processSegs P T false b (dropLastSegs (splitHash s))).1)]
        simp [seqR]
      · have hLne := lastSeg_splitHash_not_ends s (List.ne_nil_of_mem hmS) hend
        have hincS : (!(s.getLast? == some '#')) = true := by simp [hend]
        rw [hincS,
          processSegs_single_full P T
            ((processSegs P T false b (dropLastSegs (splitHash s))).1)
            (lastSeg (splitHash s)) hLne]
        rw [← htail ((processSegs P T false b (dropLastSegs (splitHash s))).1
          ++ lastSeg (splitHash s))]
        simp [seqR]
    · have hsps : splitHash s = [s] := splitHash_no_hash s hmS
      by_cases hmT : '#' ∈ th :: t'
      · have hmST : '#' ∈ s ++ th :: t' := List.mem_append.mpr (Or.inr hmT)
        have hsp2 : splitHash (s ++ th :: t') = (s ++ (th :: x)) :: xs := by
          rw [splitHash_append, hsps, hspt]; rfl
        have hL1 : parseSocketData P T b (s ++ th :: t')
            = processSegs P T (!((th :: t').getLast? == some '#')) b
                ((s ++ (th :: x)) :: xs) := by
          simp only [parseSocketData, if_pos hmST, hsp2, hlast]
        have hR1 : parseSocketData P T b s = (b ++ s, [], []) := by
          simp only [parseSocketData, if_neg hmS]
        rw [hL1,
          processSegs_absorb P T (!((th :: t').getLast? == some '#'))
            b s (th :: x) (by simp) xs,
          hR1, ← htail (b ++ s)]
        simp [seqR]
      · have hmST : '#' ∉ s ++ th :: t' := by
          intro hm
          rcases List.mem_append.mp hm with h | h
          · exact hmS h
          · exact hmT h
        simp only [parseSocketData, if_neg hmST, if_neg hmS, if_neg hmT, seqR]
        simp [List.append_assoc]

theorem flatten_head_ne (ds : List (List Char)) (h : ∀ d ∈ ds, d.head? ≠ some '#') :
    (ds.flatten).head? ≠ some '#' := by
  induction ds with
  | nil => simp
  | cons d ds ih =>
    cases d with
    | nil =>
      simp only [List.flatten_cons, List.nil_append]
      exact ih (fun e he => h e (List.mem_cons_of_mem _ he))
    | cons a d' => exact h (a :: d') (List.mem_cons_self _ _)

theorem feed_flatten (P : List Char → Option Json) (T : Json → Bool) :
    ∀ cs : List (List Char), (∀ d ∈ cs, d.head? ≠ some '#') →
      ∀ b, feedChunks P T b cs = parseSocketData P T b cs.flatten := by
  intro cs
  induction cs with
  | nil =>
    intro h b
    simp [feedChunks, parseSocketData]
  | cons c cs ih =>
    intro h b
    have hc : ∀ d ∈ cs, d.head? ≠ some '#' := fun d hd => h d (List.mem_cons_of_mem c hd)
    have e1 : feedChunks P T b (c :: cs)
        = seqR (parseSocketData P T b c) (fun b2 => feedChunks P T b2 cs) := rfl
    rw [e1, List.flatten_cons, parse_append P T b c cs.flatten (flatten_head_ne cs hc)]
    apply seqR_congr
    dsimp only
    exact ih hc _

/-- C1 (amended): chunk invariance holds under the extra proviso that no chunk
after the first begins with the delimiter byte — the partition never splits
immediately *before* a delimiter.  Feeding the chunks in order through
`parseSocketData` then produces exactly the same final buffer, the same
ordered sequence of decoded messages, and the same caught errors as feeding
the whole concatenated stream as one chunk. -/
theorem chunk_invariance (P : List Char → Option Json) (T : Json → Bool)
    (b c : List Char) (cs : List (List Char))
    (h : ∀ d ∈ cs, d.head? ≠ some '#') :
    feedChunks P T b (c :: cs) = parseSocketData P T b ((c :: cs).flatten) := by
  have e1 : feedChunks P T b (c :: cs)
      = seqR (parseSocketData P T b c) (fun b2 => feedChunks P T b2 cs) := rfl
  rw [e1, List.flatten_cons, parse_append P T b c cs.flatten (flatten_head_ne cs h)]
  apply seqR_congr
  dsimp only
  exact feed_flatten P T cs h _

theorem chunk_invariance_witness :
    (∀ d ∈ [chars "\"data\":1\x7d#"], d.head? ≠ some '#') ∧
    feedChunks jsonParse noThrow [] [chars "\x7b\"op\":\"a\",", chars "\"data\":1\x7d#"]
      = parseSocketData jsonParse noThrow []
          ([chars "\x7b\"op\":\"a\",", chars "\"data\":1\x7d#"].flatten) ∧
    (feedChunks jsonParse noThrow []
        [chars "\x7b\"op\":\"a\",", chars "\"data\":1\x7d#"]).2.1.length = 1 :=
  ⟨by decide,
    chunk_invariance jsonParse noThrow [] (chars "\x7b\"op\":\"a\",")
      [chars "\"data\":1\x7d#"] (by decide),
    rfl⟩

/-- C1 is refuted as stated: the well-formed stream
`{"op":"a","data":1}#{"op":"b","data":2}#` split into the two chunks
`{"op":"a","data":1}#{"op":"b","data":2}` and `#` — a split right before a
delimiter byte, not inside it — yields one decoded message, while the whole
stream fed as a single chunk yields two. -/
theorem chunk_invariance_counterexample :
    wellFormedStream
      (chars "\x7b\"op\":\"a\",\"data\":1\x7d#\x7b\"op\":\"b\",\"data\":2\x7d#") ∧
    [chars "\x7b\"op\":\"a\",\"data\":1\x7d#\x7b\"op\":\"b\",\"data\":2\x7d",
        chars "#"].flatten
      = chars "\x7b\"op\":\"a\",\"data\":1\x7d#\x7b\"op\":\"b\",\"data\":2\x7d#" ∧
    (parseSocketData jsonParse noThrow []
        (chars "\x7b\"op\":\"a\",\"data\":1\x7d#\x7b\"op\":\"b\",\"data\":2\x7d#")).2.1.length
      = 2 ∧
    (feedChunks jsonParse noThrow []
        [chars "\x7b\"op\":\"a\",\"data\":1\x7d#\x7b\"op\":\"b\",\"data\":2\x7d",
          chars "#"]).2.1.length = 1 :=
  ⟨⟨[chars "\x7b\"op\":\"a\",\"data\":1\x7d", chars "\x7b\"op\":\"b\",\"data\":2\x7d"],
    by decide, by decide⟩, by decide, rfl, rfl⟩
